import Mathlib

/-!
Verification of the Gesellschafterliste PDF-parsing core (`src/pdf_parser.py`
of the gf-screening repository) against its specification.

The Python source is shallowly embedded here:
* strings are processed as `List Char` with structural (or fuel-based)
  recursion so every definition evaluates inside the kernel;
* Python `float` values are modelled as exact rationals `ℚ` (all numeric
  literals handled by the parser are short decimal strings, on which the
  embedding is exact);
* Python exceptions are modelled with `Except Unit`;
* the external PDF-reading collaborator (pdfplumber) is modelled as data:
  a document is either an open/extraction failure or a list of pages, each
  carrying its extracted text and either its extracted tables or an
  extraction failure;
* the regular expressions of the pattern library are embedded as explicit
  scanning functions.  Each scanner follows the Python `re` semantics for
  its specific pattern (leftmost match, greedy repetition, backtracking);
  for every quantifier of every embedded pattern the greedy choice is
  forced by disjointness of the neighbouring character classes, except the
  lowercase run before the literal `geb.` in the `numbered_geb` pattern,
  where the scanner enumerates the backtracking candidates in engine order.
-/

namespace GfScreening

/-! ### Character classes and elementary string operations -/

/-- Whitespace as matched by Python's `\s`, `str.strip()` and `str.split()`
for the character repertoire of this parser (ASCII whitespace). -/
def pySpace (c : Char) : Bool :=
  c = ' ' || c = '\t' || c = '\n' || c = '\r' || c.toNat = 11 || c.toNat = 12

/-- The uppercase class `[A-ZÄÖÜ]` of the pattern library. -/
def isUpperDE (c : Char) : Bool :=
  ('A' ≤ c && c ≤ 'Z') || c = 'Ä' || c = 'Ö' || c = 'Ü'

/-- The lowercase class `[a-zäöüß]` of the pattern library. -/
def isLowerDE (c : Char) : Bool :=
  ('a' ≤ c && c ≤ 'z') || c = 'ä' || c = 'ö' || c = 'ü' || c = 'ß'

/-- Python `str.lower` on one character, for the alphabet that occurs in
the parser's marker lists and inputs (ASCII letters and umlauts). -/
def lowerChar (c : Char) : Char :=
  if 'A' ≤ c && c ≤ 'Z' then Char.ofNat (c.toNat + 32)
  else if c = 'Ä' then 'ä'
  else if c = 'Ö' then 'ö'
  else if c = 'Ü' then 'ü'
  else c

/-- Python `str.lower`. -/
def pyLower (s : String) : String := ⟨s.data.map lowerChar⟩

/-- Python `str.upper` on one character; note `'ß'.upper() = "SS"`. -/
def upperChar (c : Char) : List Char :=
  if 'a' ≤ c && c ≤ 'z' then [Char.ofNat (c.toNat - 32)]
  else if c = 'ä' then ['Ä']
  else if c = 'ö' then ['Ö']
  else if c = 'ü' then ['Ü']
  else if c = 'ß' then ['S', 'S']
  else [c]

/-- Python `str.upper`. -/
def pyUpper (s : String) : String := ⟨(s.data.map upperChar).flatten⟩

/-- Strip leading and trailing whitespace from a character list. -/
def pyStripL (l : List Char) : List Char :=
  ((l.dropWhile pySpace).reverse.dropWhile pySpace).reverse

/-- Python `str.strip()`. -/
def pyStrip (s : String) : String := ⟨pyStripL s.data⟩

/-- Does `pat` occur as a prefix of `l`? -/
def startsWithChars : List Char → List Char → Bool
  | [], _ => true
  | _ :: _, [] => false
  | a :: as, b :: bs => a = b && startsWithChars as bs

/-- Does `pat` occur as a contiguous substring of `l`?  Embeds Python's
`pat in l` on strings. -/
def subStrChars (pat : List Char) : List Char → Bool
  | [] => startsWithChars pat []
  | c :: rest => startsWithChars pat (c :: rest) || subStrChars pat rest

/-- Python `pat in hay` for strings. -/
def containsStr (hay pat : String) : Bool := subStrChars pat.data hay.data

/-- Helper for `collapseWsL`: the flag records whether the previous
character was whitespace (already emitted as a single space). -/
def collapseGo : Bool → List Char → List Char
  | _, [] => []
  | inWs, c :: rest =>
    if pySpace c then
      if inWs then collapseGo true rest else ' ' :: collapseGo true rest
    else c :: collapseGo false rest

/-- Embeds `re.sub(r"\s+", " ", ·)`: every maximal whitespace run becomes
one space. -/
def collapseWsL (l : List Char) : List Char := collapseGo false l

/-- Python `str.rstrip(",")`. -/
def rstripCommaL (l : List Char) : List Char :=
  (l.reverse.dropWhile (fun c => c = ',')).reverse

/-- Helper for `pySplitWs`: accumulates the current word reversed. -/
def wordsGo (cur : List Char) : List Char → List (List Char)
  | [] => if cur.isEmpty then [] else [cur.reverse]
  | c :: rest =>
    if pySpace c then
      if cur.isEmpty then wordsGo [] rest else cur.reverse :: wordsGo [] rest
    else wordsGo (c :: cur) rest

/-- Python `str.split()` with no argument: split on whitespace runs,
dropping empty fields. -/
def pySplitWs (s : String) : List String := (wordsGo [] s.data).map (⟨·⟩)

/-- Helper for `replaceAllStr` (fuel-based; every use in this development
replaces a single-character pattern, for which this equals Python
`str.replace`). -/
def replaceGo (pat rep : List Char) : Nat → List Char → List Char
  | 0, l => l
  | _, [] => []
  | fuel + 1, c :: rest =>
    if startsWithChars pat (c :: rest) then
      rep ++ replaceGo pat rep fuel (rest.drop (pat.length - 1))
    else c :: replaceGo pat rep fuel rest

/-- Python `s.replace(pat, rep)` (used only with nonempty `pat`). -/
def replaceAllStr (s pat rep : String) : String :=
  ⟨replaceGo pat.data rep.data s.data.length s.data⟩

/-- Join a list of strings with newline separators; embeds
`"\n".join(...)`. -/
def joinNl : List String → String
  | [] => ""
  | [s] => s
  | s :: rest => s ++ "\n" ++ joinNl rest

/-! ### Python `float` on the decimal strings produced by the parser -/

/-- Numeric value of a digit string. -/
def digitsToNat (l : List Char) : Nat :=
  l.foldl (fun n c => n * 10 + (c.toNat - 48)) 0

/-- Split a character list at the first dot. -/
def splitDotGo (acc : List Char) : List Char → List Char × Option (List Char)
  | [] => (acc.reverse, none)
  | '.' :: rest => (acc.reverse, some rest)
  | c :: rest => splitDotGo (c :: acc) rest

/-- Embeds Python `float(s)` on the strings reachable in this parser
(digits with at most one dot); `none` models a raised `ValueError`.
The decimal value is represented exactly as a rational. -/
def pyFloat (s : String) : Option ℚ :=
  match splitDotGo [] s.data with
  | (ip, none) =>
    if !ip.isEmpty && ip.all Char.isDigit then some (digitsToNat ip : ℚ) else none
  | (ip, some fp) =>
    if !(ip ++ fp).isEmpty && ip.all Char.isDigit && fp.all Char.isDigit then
      some ((digitsToNat ip : ℚ) + (digitsToNat fp : ℚ) / (10 : ℚ) ^ fp.length)
    else none

/-! ### Data model (`models.Shareholder`, `pdf_parser.ParsingResult`)

The persistence-only fields of the Python `Shareholder` dataclass
(`id`, `company_id`, `created_at`) play no role in the parser and are
omitted; the remaining fields keep their names and defaults. -/

structure Shareholder where
  name : String
  share_percent : Option ℚ := none
  is_natural_person : Bool := true
  source : String := ""
deriving Repr, DecidableEq

structure ParsingResult where
  shareholders : List Shareholder
  natural_persons_count : Nat
  legal_entities_count : Nat
  confidence : ℚ
  raw_text : String := ""
deriving Repr, DecidableEq

/-! ### The marker-word constants of `GesellschafterlisteParser` -/

def LEGAL_ENTITY_MARKERS : List String :=
  ["GmbH", "AG", "KG", "SE", "UG", "OHG", "e.V.", "e. V.",
   "Stiftung", "Ltd.", "B.V.", "S.A.", "S.L.", "Inc.", "Corp.",
   "Holding", "Beteiligungs", "Verwaltungs", "& Co.", "mbH",
   "Kommanditgesellschaft", "Aktiengesellschaft", "Genossenschaft",
   "GbR", "PartG", "EWIV", "KGaA", "VVaG"]

def NON_PERSON_MARKERS : List String :=
  ["Geschäftsanteil", "Stammkapital", "Nennbetrag", "laufende",
   "Nummer", "Betrag", "Liste", "Gesellschafter", "insgesamt",
   "Summe", "EUR", "Anteil", "Veränderung"]

/-! ### `_is_natural_person` -/

/-- The marker loop of `_is_natural_person`: does the upper-cased name
contain some upper-cased legal-entity marker? -/
def hasLegalMarker (name : String) : Bool :=
  LEGAL_ENTITY_MARKERS.any (fun m => containsStr (pyUpper name) (pyUpper m))

/-- Embeds `GesellschafterlisteParser._is_natural_person`. -/
def isNaturalPerson (name : String) : Bool :=
  if hasLegalMarker name then false
  else if (pySplitWs name).length > 5 then false
  else if name.data.any Char.isDigit then false
  else true

/-! ### `_clean_name` -/

/-- Embeds `GesellschafterlisteParser._clean_name`: collapse whitespace
runs, strip outer whitespace, then strip trailing commas. -/
def cleanName (s : String) : String :=
  ⟨rstripCommaL (pyStripL (collapseWsL s.data))⟩

/-! ### Embedded regular-expression scanners (the `PATTERNS` library)

Each `match…At` function embeds one compiled pattern of
`GesellschafterlisteParser.PATTERNS`, attempted at a fixed start
position; it returns the captured groups and the remaining input after
the match.  `findallGo`/`searchGo` supply the `findall`/`search`
position scan (leftmost match, non-overlapping continuation). -/

/-- One capitalized token `[A-ZÄÖÜ][a-zäöüß]+`. -/
def parseTok : List Char → Option (List Char × List Char)
  | [] => none
  | c :: rest =>
    if isUpperDE c then
      let (low, rest2) := rest.span isLowerDE
      if low.isEmpty then none else some (c :: low, rest2)
    else none

/-- A nonempty whitespace run `\s+`. -/
def parseWs1 (l : List Char) : Option (List Char × List Char) :=
  let (w, rest) := l.span pySpace
  if w.isEmpty then none else some (w, rest)

/-- Greedy collection of `(?:\s+[A-ZÄÖÜ][a-zäöüß]+)*` repetitions as
(whitespace, token) pairs; the fuel is the input length. -/
def collectExtrasP : Nat → List Char → List (List Char × List Char) × List Char
  | 0, l => ([], l)
  | fuel + 1, l =>
    match parseWs1 l with
    | none => ([], l)
    | some (w, r1) =>
      match parseTok r1 with
      | none => ([], l)
      | some (t, r2) =>
        let (es, rest) := collectExtrasP fuel r2
        ((w, t) :: es, rest)

/-- Like `collectExtrasP` but capped (for the `{1,3}` repetition of the
`name_only` pattern, the engine attempts at most 3 repetitions). -/
def collectExtrasCap : Nat → List Char → List (List Char × List Char) × List Char
  | 0, l => ([], l)
  | cap + 1, l =>
    match parseWs1 l with
    | none => ([], l)
    | some (w, r1) =>
      match parseTok r1 with
      | none => ([], l)
      | some (t, r2) =>
        let (es, rest) := collectExtrasCap cap r2
        ((w, t) :: es, rest)

/-- Flatten a suffix of collected repetitions back onto the remaining
input (used when backtracking drops those repetitions). -/
def flatExtras : List (List Char × List Char) → List Char → List Char
  | [], rest => rest
  | (w, t) :: es, rest => w ++ t ++ flatExtras es rest

/-- The date shape `\d{2}\.\d{2}\.\d{4}` (fixed width, no backtracking). -/
def parseDate : List Char → Option (List Char × List Char)
  | d1 :: d2 :: p1 :: d3 :: d4 :: p2 :: d5 :: d6 :: d7 :: d8 :: rest =>
    if d1.isDigit && d2.isDigit && p1 = '.' && d3.isDigit && d4.isDigit && p2 = '.' &&
       d5.isDigit && d6.isDigit && d7.isDigit && d8.isDigit then
      some ([d1, d2, p1, d3, d4, p2, d5, d6, d7, d8], rest)
    else none
  | _ => none

/-- Continuation `,?\s*geb\.\s*(\d{2}\.\d{2}\.\d{4})` of the
`numbered_geb` pattern.  The optional comma and the whitespace runs are
forced (their character classes are disjoint from what follows). -/
def gebCont (l : List Char) : Option (List Char × List Char) :=
  let l1 := match l with
    | ',' :: r => r
    | _ => l
  match l1.dropWhile pySpace with
  | 'g' :: 'e' :: 'b' :: '.' :: r3 => parseDate (r3.dropWhile pySpace)
  | _ => none

/-- Backtracking over the lowercase-run length of the final name token of
`numbered_geb` (longest first, as the greedy engine does): the literal
`geb` of the continuation can steal trailing lowercase letters. -/
def gebTryRuns (pre ws tok after : List Char) :
    Nat → Option (List Char × List Char × List Char)
  | 0 => none
  | j + 1 =>
    match gebCont (tok.drop (1 + (j + 1)) ++ after) with
    | some (date, rest) => some (pre ++ ws ++ tok.take (1 + (j + 1)), date, rest)
    | none => gebTryRuns pre ws tok after j

/-- Backtracking over the number of `(?:\s+Tok)+` repetitions used by the
`numbered_geb` name group (most repetitions first, then shorter lowercase
runs of the final token), mirroring the engine's candidate order. -/
def gebGo (pre rest : List Char) :
    List (List Char × List Char) → Option (List Char × List Char × List Char)
  | [] => none
  | (ws, tok) :: more =>
    match gebGo (pre ++ ws ++ tok) rest more with
    | some r => some r
    | none => gebTryRuns pre ws tok (flatExtras more rest) (tok.length - 1)

/-- The `numbered_geb` pattern
`\d+\.\s*([A-ZÄÖÜ][a-zäöüß]+(?:\s+[A-ZÄÖÜ][a-zäöüß]+)+),?\s*geb\.\s*(\d{2}\.\d{2}\.\d{4})`
attempted at the start of `l`; groups: (name, birthdate). -/
def matchNumberedGebAt (l : List Char) :
    Option ((List Char × List Char) × List Char) :=
  let (ds, r1) := l.span Char.isDigit
  if ds.isEmpty then none
  else
    match r1 with
    | '.' :: r2 =>
      let r3 := r2.dropWhile pySpace
      match parseTok r3 with
      | none => none
      | some (t1, r4) =>
        let (extras, r5) := collectExtrasP r4.length r4
        match gebGo t1 r5 extras with
        | some (name, date, rest) => some ((name, date), rest)
        | none => none
    | _ => none

/-- The part `\s*([^,*]+),` shared by `standard_birth` and `name_first`
(city group followed by a comma).  The greedy `\s*` can be forced to give
back exactly one whitespace character when the `[^,*]+` group would
otherwise be empty. -/
def cityCommaPart (l : List Char) : Option (List Char × List Char) :=
  let (ws, r1) := l.span pySpace
  let (run, r2) := r1.span (fun c => c ≠ ',' && c ≠ '*')
  if run.isEmpty then
    match ws.getLast?, r1 with
    | some w, ',' :: r3 => some ([w], r3)
    | _, _ => none
  else
    match r2 with
    | ',' :: r3 => some (run, r3)
    | _ => none

/-- The trailing part `\s*\*\s*(\d{2}\.\d{2}\.\d{4})` of the two
birthdate patterns. -/
def starDatePart (l : List Char) : Option (List Char × List Char) :=
  match l.dropWhile pySpace with
  | '*' :: r2 => parseDate (r2.dropWhile pySpace)
  | _ => none

/-- The `standard_birth` pattern
`([A-ZÄÖÜ][a-zäöüß]+),\s*([A-ZÄÖÜ][a-zäöüß]+(?:\s+[A-ZÄÖÜ][a-zäöüß]+)?),\s*([^,*]+),\s*\*\s*(\d{2}\.\d{2}\.\d{4})`;
groups: (surname, firstname, city, birthdate).  The optional second
firstname token is kept only when a comma follows it directly, which is
exactly when the engine's greedy attempt survives. -/
def matchStandardBirthAt (l : List Char) :
    Option ((List Char × List Char × List Char × List Char) × List Char) :=
  match parseTok l with
  | none => none
  | some (t1, r1) =>
    match r1 with
    | ',' :: r2 =>
      let r3 := r2.dropWhile pySpace
      match parseTok r3 with
      | none => none
      | some (t2, r4) =>
        let (g2, r5) :=
          match parseWs1 r4 with
          | some (w, r4a) =>
            match parseTok r4a with
            | some (t3, r4b) =>
              match r4b with
              | ',' :: _ => (t2 ++ w ++ t3, r4b)
              | _ => (t2, r4)
            | none => (t2, r4)
          | none => (t2, r4)
        match r5 with
        | ',' :: r6 =>
          match cityCommaPart r6 with
          | none => none
          | some (city, r7) =>
            match starDatePart r7 with
            | none => none
            | some (date, r8) => some ((t1, g2, city, date), r8)
        | _ => none
    | _ => none

/-- The `name_first` pattern
`([A-ZÄÖÜ][a-zäöüß]+(?:\s+[A-ZÄÖÜ][a-zäöüß]+)+),\s*([^,*]+),\s*\*\s*(\d{2}\.\d{2}\.\d{4})`;
groups: (full name, city, birthdate).  Only the greedy repetition count
can be followed by the required comma, so no repetition backtracking is
needed. -/
def matchNameFirstAt (l : List Char) :
    Option ((List Char × List Char × List Char) × List Char) :=
  match parseTok l with
  | none => none
  | some (t1, r1) =>
    let (extras, r2) := collectExtrasP r1.length r1
    if extras.isEmpty then none
    else
      match r2 with
      | ',' :: r3 =>
        match cityCommaPart r3 with
        | none => none
        | some (city, r4) =>
          match starDatePart r4 with
          | none => none
          | some (date, r5) => some ((t1 ++ flatExtras extras [], city, date), r5)
      | _ => none

/-- The unit alternation `(%|EUR|€)`; the alternatives start with
distinct characters, so the order of alternation is forced. -/
def unitPart (l : List Char) : Option (List Char × List Char) :=
  match l.dropWhile pySpace with
  | '%' :: rest => some (['%'], rest)
  | 'E' :: 'U' :: 'R' :: rest => some (['E', 'U', 'R'], rest)
  | '€' :: rest => some (['€'], rest)
  | _ => none

/-- The part `(\d+(?:[.,]\d+)?)\s*(%|EUR|€)` of the `name_share`
pattern: number group (greedy optional fraction, with the engine's
fallback to the integer-only reading) and unit group. -/
def numUnitPart (l : List Char) :
    Option ((List Char × List Char) × List Char) :=
  let (d1, r1) := l.span Char.isDigit
  if d1.isEmpty then none
  else
    let fallback :=
      match unitPart r1 with
      | some (u, rest) => some ((d1, u), rest)
      | none => none
    match r1 with
    | c :: r2 =>
      if c = '.' || c = ',' then
        let (d2, r3) := r2.span Char.isDigit
        if d2.isEmpty then fallback
        else
          match unitPart r3 with
          | some (u, rest) => some ((d1 ++ c :: d2, u), rest)
          | none => fallback
      else fallback
    | [] => fallback

/-- The `name_share` pattern
`([A-ZÄÖÜ][a-zäöüß]+(?:\s+[A-ZÄÖÜ][a-zäöüß]+)+)\s+(\d+(?:[.,]\d+)?)\s*(%|EUR|€)`;
groups: (full name, amount, unit). -/
def matchNameShareAt (l : List Char) :
    Option ((List Char × List Char × List Char) × List Char) :=
  match parseTok l with
  | none => none
  | some (t1, r1) =>
    let (extras, r2) := collectExtrasP r1.length r1
    if extras.isEmpty then none
    else
      match parseWs1 r2 with
      | none => none
      | some (_, r3) =>
        match numUnitPart r3 with
        | some ((num, u), rest) => some ((t1 ++ flatExtras extras [], num, u), rest)
        | none => none

/-- Line-end test for the MULTILINE `$` anchor: end of input or a
following newline. -/
def atEol : List Char → Bool
  | [] => true
  | c :: _ => c = '\n'

/-- Candidate selection for the `{1,3}` repetition of `name_only`
(greedy: most repetitions first), requiring the `$` anchor after the
final token. -/
def nameOnlyPick (pre rest : List Char) :
    List (List Char × List Char) → Option (List Char × List Char)
  | [] => none
  | (ws, tok) :: more =>
    match nameOnlyPick (pre ++ ws ++ tok) rest more with
    | some r => some r
    | none =>
      let after := flatExtras more rest
      if atEol after then some (pre ++ ws ++ tok, after) else none

/-- The `name_only` pattern
`^([A-ZÄÖÜ][a-zäöüß]+(?:\s+[A-ZÄÖÜ][a-zäöüß]+){1,3})$` (MULTILINE)
attempted at a position where `^` holds; group: the full name.  The
`\s+` separators may cross newlines, so this is not a per-line match. -/
def matchNameOnlyAt (l : List Char) : Option (List Char × List Char) :=
  match parseTok l with
  | none => none
  | some (t1, r1) =>
    let (extras, r2) := collectExtrasCap 3 r1
    nameOnlyPick t1 r2 extras

/-- `findall` scan for `name_only`: the match is attempted exactly at
positions where the MULTILINE `^` anchor holds (start of input or right
after a newline). -/
def nameOnlyFindGo : Nat → Bool → List Char → List (List Char)
  | 0, _, _ => []
  | fuel + 1, atStart, l =>
    if atStart then
      match matchNameOnlyAt l with
      | some (g, rest) => g :: nameOnlyFindGo fuel false rest
      | none =>
        match l with
        | [] => []
        | c :: t => nameOnlyFindGo fuel (c = '\n') t
    else
      match l with
      | [] => []
      | c :: t => nameOnlyFindGo fuel (c = '\n') t

/-- `PATTERNS["name_only"].findall(s)`. -/
def nameOnlyFindall (s : String) : List (List Char) :=
  nameOnlyFindGo (s.data.length + 1) true s.data

/-- `re.Pattern.search`: first position (leftmost) with a match; returns
its groups. -/
def searchGo {G : Type} (m : List Char → Option (G × List Char)) :
    List Char → Option G
  | [] =>
    match m [] with
    | some (g, _) => some g
    | none => none
  | c :: rest =>
    match m (c :: rest) with
    | some (g, _) => some g
    | none => searchGo m rest

/-- `re.Pattern.findall`: scan left to right, emit each leftmost match
and continue after its end.  Every embedded pattern consumes at least one
character, so fuel `length + 1` is exact. -/
def findallGo {G : Type} (m : List Char → Option (G × List Char)) :
    Nat → List Char → List G
  | 0, _ => []
  | fuel + 1, l =>
    match m l with
    | some (g, rest) => g :: findallGo m fuel rest
    | none =>
      match l with
      | [] => []
      | _ :: t => findallGo m fuel t

/-- `findall` on a string. -/
def findallStr {G : Type} (m : List Char → Option (G × List Char))
    (s : String) : List G :=
  findallGo m (s.data.length + 1) s.data

/-! ### `_parse_with_patterns` -/

/-- The per-match body of `_parse_with_patterns`: clean the derived name,
apply the minimum-length and non-person-marker filters, and build a
Shareholder tagged `regex:<pattern-name>` (no share value is ever set on
this path). -/
def regexEntry (pname rawName : String) : Option Shareholder :=
  let name := cleanName rawName
  if name.length < 3 then none
  else if NON_PERSON_MARKERS.any (fun m => containsStr (pyLower name) (pyLower m)) then none
  else some { name := name, source := "regex:" ++ pname }

/-- Embeds `GesellschafterlisteParser._parse_with_patterns`: all matches
of all five patterns, in the dictionary order of `PATTERNS`; for
`standard_birth` the name is reassembled as "Firstname Surname". -/
def parseWithPatterns (text : String) : List Shareholder :=
  let ms1 := (findallStr matchStandardBirthAt text).filterMap
    (fun g => regexEntry "standard_birth" ⟨g.2.1 ++ ' ' :: g.1⟩)
  let ms2 := (findallStr matchNameFirstAt text).filterMap
    (fun g => regexEntry "name_first" ⟨g.1⟩)
  let ms3 := (findallStr matchNumberedGebAt text).filterMap
    (fun g => regexEntry "numbered_geb" ⟨g.1⟩)
  let ms4 := (findallStr matchNameShareAt text).filterMap
    (fun g => regexEntry "name_share" ⟨g.1⟩)
  let ms5 := (nameOnlyFindall text).filterMap
    (fun g => regexEntry "name_only" ⟨g⟩)
  ms1 ++ ms2 ++ ms3 ++ ms4 ++ ms5

/-! ### `_parse_share` -/

/-- End part `\s*%` of the percent pattern `(\d+(?:[.,]\d+)?)\s*%`. -/
def pctEnd (l : List Char) : Option (List Char) :=
  match l.dropWhile pySpace with
  | '%' :: rest => some rest
  | _ => none

/-- The percent pattern `(\d+(?:[.,]\d+)?)\s*%` attempted at the start
of `l`; returns the number group. -/
def matchPercentAt (l : List Char) : Option (List Char × List Char) :=
  let (d1, r1) := l.span Char.isDigit
  if d1.isEmpty then none
  else
    let fallback :=
      match pctEnd r1 with
      | some rest => some (d1, rest)
      | none => none
    match r1 with
    | c :: r2 =>
      if c = '.' || c = ',' then
        let (d2, r3) := r2.span Char.isDigit
        if d2.isEmpty then fallback
        else
          match pctEnd r3 with
          | some rest => some (d1 ++ c :: d2, rest)
          | none => fallback
      else fallback
    | [] => fallback

/-- End part `\s*(?:EUR|€)` of the EUR pattern. -/
def eurEnd (l : List Char) : Option (List Char) :=
  match l.dropWhile pySpace with
  | 'E' :: 'U' :: 'R' :: rest => some rest
  | '€' :: rest => some rest
  | _ => none

/-- The EUR pattern `([\d.]+(?:,\d+)?)\s*(?:EUR|€)` attempted at the
start of `l`; returns the number group. -/
def matchEurAt (l : List Char) : Option (List Char × List Char) :=
  let (d1, r1) := l.span (fun c => c.isDigit || c = '.')
  if d1.isEmpty then none
  else
    let fallback :=
      match eurEnd r1 with
      | some rest => some (d1, rest)
      | none => none
    match r1 with
    | ',' :: r2 =>
      let (d2, r3) := r2.span Char.isDigit
      if d2.isEmpty then fallback
      else
        match eurEnd r3 with
        | some rest => some (d1 ++ ',' :: d2, rest)
        | none => fallback
    | _ => fallback

/-- Embeds `GesellschafterlisteParser._parse_share`.  The `.error` case
models the `ValueError` that Python's `float` raises when the matched
EUR group contains no digits (for example a group consisting only of
dots); on every input appearing in the spec the result is `.ok`. -/
def parseShareE (s : String) : Except Unit (Option ℚ) :=
  if s = "" then .ok none
  else
    match searchGo matchPercentAt s.data with
    | some g =>
      match pyFloat (replaceAllStr ⟨g⟩ "," ".") with
      | some q => .ok (some q)
      | none => .error ()
    | none =>
      match searchGo matchEurAt s.data with
      | some g =>
        match pyFloat (replaceAllStr (replaceAllStr ⟨g⟩ "." "") "," ".") with
        | some q => .ok (some q)
        | none => .error ()
      | none => .ok none

/-! ### `_find_column_index` and `_parse_table` -/

/-- The header-keyword lists used for locating the name and share
columns in `parse_table`. -/
def NAME_SEARCH_TERMS : List String :=
  ["name", "gesellschafter", "vor- und nachname", "nachname",
   "inhaber", "anteilsinhaber"]

def SHARE_SEARCH_TERMS : List String :=
  ["anteil", "%", "geschäftsanteil", "nennbetrag", "betrag", "prozent"]

/-- `str(h).lower() if h else ""` applied to a header cell. -/
def headerStr (cell : Option String) : String :=
  match cell with
  | some s => if s = "" then "" else pyLower s
  | none => ""

/-- Embeds `GesellschafterlisteParser._find_column_index`: first index
whose (truthy) header contains one of the search terms. -/
def findColumnIndexGo (terms : List String) : Nat → List String → Option Nat
  | _, [] => none
  | i, h :: rest =>
    if h ≠ "" && terms.any (fun t => containsStr h t) then some i
    else findColumnIndexGo terms (i + 1) rest

def findColumnIndex (headers : List String) (terms : List String) : Option Nat :=
  findColumnIndexGo terms 0 headers

/-- The fallback of `_parse_table` when no name header matched: the first
truthy header cell that does not contain `nr`, `lfd` or `nummer`. -/
def fallbackNameCol : Nat → List (Option String) → Option Nat
  | _, [] => none
  | i, cell :: rest =>
    match cell with
    | some s =>
      if s ≠ "" && !(["nr", "lfd", "nummer"].any (fun m => containsStr (pyLower s) m)) then
        some i
      else fallbackNameCol (i + 1) rest
    | none => fallbackNameCol (i + 1) rest

/-- The name-cell read of `_parse_table`'s row loop:
`str(row[name_col]).strip() if row[name_col] else ""`. -/
def rowName (nameCol : Nat) (row : List (Option String)) : String :=
  match row.getD nameCol none with
  | some s => if s = "" then "" else pyStrip s
  | none => ""

/-- The share-cell read of `_parse_table`'s row loop: only when a share
column was identified, the row is long enough and the cell truthy is the
share parser consulted. -/
def rowShare (shareCol : Option Nat) (row : List (Option String)) :
    Except Unit (Option ℚ) :=
  match shareCol with
  | some j =>
    if row.length > j then
      match row.getD j none with
      | some s => if s = "" then pure none else parseShareE s
      | none => pure none
    else pure none
  | none => pure none

/-- The body of `_parse_table`'s row loop for one data row: `.ok none`
means the row is skipped, `.ok (some sh)` that it yields a Shareholder;
`.error` propagates a share-parsing `ValueError`. -/
def parseRow (nameCol : Nat) (shareCol : Option Nat) (row : List (Option String)) :
    Except Unit (Option Shareholder) :=
  if row.length ≤ nameCol then .ok none
  else
    let name := rowName nameCol row
    if name = "" || name.length < 3 then .ok none
    else if NON_PERSON_MARKERS.any (fun m => containsStr (pyLower name) (pyLower m)) then
      .ok none
    else
      Except.map
        (fun share => some { name := cleanName name, share_percent := share,
                             source := "table" })
        (rowShare shareCol row)

/-- The name-column selection of `_parse_table`: header keywords first,
then the first-non-index-column fallback. -/
def chooseNameCol (table : List (List (Option String))) : Option Nat :=
  match findColumnIndex ((table.headD []).map headerStr) NAME_SEARCH_TERMS with
  | some i => some i
  | none => fallbackNameCol 0 (table.headD [])

/-- One iteration of `_parse_table`'s row loop: append the row's
Shareholder (if any) to the accumulator. -/
def rowStep (nameCol : Nat) (shareCol : Option Nat) (acc : List Shareholder)
    (row : List (Option String)) : Except Unit (List Shareholder) := do
  match ← parseRow nameCol shareCol row with
  | some sh => pure (acc ++ [sh])
  | none => pure acc

/-- Embeds `GesellschafterlisteParser._parse_table` on one table grid
(rows of optional cell strings, as delivered by the PDF collaborator). -/
def parseTable (table : List (List (Option String))) : Except Unit (List Shareholder) :=
  if table.length < 2 then .ok []
  else
    match chooseNameCol table with
    | none => .ok []
    | some nc =>
      (table.drop 1).foldlM
        (rowStep nc (findColumnIndex ((table.headD []).map headerStr) SHARE_SEARCH_TERMS)) []

/-! ### `_deduplicate` -/

/-- The normalization key `name.lower().strip()`. -/
def dedupKey (sh : Shareholder) : String := pyStrip (pyLower sh.name)

/-- The loop of `_deduplicate`; `seen` models the Python set of keys. -/
def dedupGo (seen : List String) : List Shareholder → List Shareholder
  | [] => []
  | sh :: rest =>
    if seen.contains (dedupKey sh) then dedupGo seen rest
    else sh :: dedupGo (dedupKey sh :: seen) rest

/-- Embeds `GesellschafterlisteParser._deduplicate`. -/
def deduplicate (shareholders : List Shareholder) : List Shareholder :=
  dedupGo [] shareholders

/-- Reference formulation of first-occurrence deduplication: keep the
head, drop every later entry with the same key, recurse. -/
def specDedup : List Shareholder → List Shareholder
  | [] => []
  | sh :: rest => sh :: specDedup (rest.filter (fun y => dedupKey y ≠ dedupKey sh))
termination_by l => l.length
decreasing_by
  simp only [List.length_cons]
  exact Nat.lt_succ_of_le (List.length_filter_le _ _)

/-! ### `_calculate_confidence` -/

/-- `re.search(r"\*\s*\d{2}\.\d{2}\.\d{4}", ·)` as a Boolean. -/
def matchBirthAt (l : List Char) : Option (Unit × List Char) :=
  match l with
  | '*' :: r1 =>
    match parseDate (r1.dropWhile pySpace) with
    | some (_, rest) => some ((), rest)
    | none => none
  | _ => none

def hasBirthdateMarker (s : String) : Bool :=
  (searchGo matchBirthAt s.data).isSome

/-- Embeds `GesellschafterlisteParser._calculate_confidence`; the float
weights 0.3/0.15/0.2/0.1 are represented exactly as rationals. -/
def calculateConfidence (shareholders : List Shareholder) (fullText : String) : ℚ :=
  if shareholders.isEmpty then 0
  else
    let score : ℚ := 0
    let score :=
      if shareholders.any (fun s => s.source = "table") then score + 3 / 10
      else if shareholders.any (fun s => containsStr s.source "regex") then score + 15 / 100
      else score
    let score :=
      if shareholders.any (fun s => s.share_percent.isSome) then score + 2 / 10 else score
    let score :=
      if 1 ≤ shareholders.length ∧ shareholders.length ≤ 10 then score + 2 / 10
      else if shareholders.length ≤ 20 then score + 1 / 10
      else score
    let score := if hasBirthdateMarker fullText then score + 15 / 100 else score
    let score :=
      if containsStr (pyLower fullText) "gesellschafterliste" then score + 15 / 100
      else score
    min score 1

/-! ### `parse` — the orchestrator over the PDF-reading collaborator -/

/-- One page of the opened document: its extracted text
(`extract_text()`, `none` for pages yielding no text) and its extracted
tables, where `.error` models `extract_tables()` raising. -/
structure Page where
  text : Option String
  tables : Except Unit (List (List (List (Option String))))

/-- Behaviour of the PDF-reading collaborator for one `parse` call:
`openFailed` models `pdfplumber.open` raising, `textFailed` an exception
while the page texts are being extracted and joined (before `full_text`
is assigned), and `pages` a document whose text extraction succeeded. -/
inductive PdfDoc where
  | openFailed : PdfDoc
  | textFailed : PdfDoc
  | pages : List Page → PdfDoc

/-- `full_text`: the per-page texts (empty for `None`) joined by
newlines. -/
def fullTextOf (ps : List Page) : String :=
  joinNl (ps.map (fun p => p.text.getD ""))

/-- One iteration of the inner table loop of `parse`: skip falsy
(empty) tables, else extend the pool with the table's shareholders. -/
def tableStep (acc : List Shareholder) (t : List (List (Option String))) :
    Except Unit (List Shareholder) := do
  if t.isEmpty then pure acc
  else do
    let ex ← parseTable t
    pure (acc ++ ex)

/-- One iteration of the outer page loop of `parse`: request the page's
tables (which may raise) and fold the table loop over them. -/
def pageStep (acc : List Shareholder) (p : Page) : Except Unit (List Shareholder) := do
  let tables ← p.tables
  tables.foldlM tableStep acc

/-- The table-extraction loop of `parse`: over every page, over every
(truthy) table, pool the extracted shareholders; the first exception
aborts the loop. -/
def extractAllTables (ps : List Page) : Except Unit (List Shareholder) :=
  ps.foldlM pageStep []

/-- The zero-value `ParsingResult` returned on the failure paths. -/
def emptyResult (raw : String) : ParsingResult :=
  { shareholders := [], natural_persons_count := 0, legal_entities_count := 0,
    confidence := 0, raw_text := raw }

/-- Classification pass of `parse`: overwrite `is_natural_person` on
every shareholder. -/
def classifyAll (shs : List Shareholder) : List Shareholder :=
  shs.map (fun sh => { sh with is_natural_person := isNaturalPerson sh.name })

/-- The tail of `parse` after successful extraction: regex fallback if
the pooled table list is empty, then deduplicate, classify, count and
score. -/
def finishParse (shs0 : List Shareholder) (fullText : String) : ParsingResult :=
  let shs1 := if shs0.isEmpty then parseWithPatterns fullText else shs0
  let shs2 := classifyAll (deduplicate shs1)
  { shareholders := shs2,
    natural_persons_count := (shs2.filter (fun s => s.is_natural_person)).length,
    legal_entities_count := (shs2.filter (fun s => !s.is_natural_person)).length,
    confidence := calculateConfidence shs2 fullText,
    raw_text := fullText }

/-- Embeds `GesellschafterlisteParser.parse`.  `pathExists` is the
result of the file-system existence check; `doc` the behaviour of the
PDF-reading collaborator. -/
def parse (pathExists : Bool) (doc : PdfDoc) : ParsingResult :=
  if !pathExists then emptyResult ""
  else
    match doc with
    | .openFailed => emptyResult ""
    | .textFailed => emptyResult ""
    | .pages ps =>
      let fullText := fullTextOf ps
      match extractAllTables ps with
      | .error _ => emptyResult fullText
      | .ok shs0 => finishParse shs0 fullText

deriving instance DecidableEq for Except

/-- The Confidence Scorer as worded in the specification (independent
additive bonuses over existential conditions, count bracket [11,20] made
explicit, clamp at 1). -/
def specConfidence (shs : List Shareholder) (fullText : String) : ℚ :=
  if shs = [] then 0
  else
    min ((if ∃ s ∈ shs, s.source = "table" then 3 / 10
          else if ∃ s ∈ shs, containsStr s.source "regex" = true then 15 / 100 else 0)
       + (if ∃ s ∈ shs, s.share_percent.isSome = true then 2 / 10 else 0)
       + (if 1 ≤ shs.length ∧ shs.length ≤ 10 then 2 / 10
          else if 11 ≤ shs.length ∧ shs.length ≤ 20 then 1 / 10 else 0)
       + (if hasBirthdateMarker fullText = true then 15 / 100 else 0)
       + (if containsStr (pyLower fullText) "gesellschafterliste" = true then 15 / 100 else 0))
      1

/-- The document of end-to-end scenario 2 of the specification: one page
with the literal text and no tables. -/
def scenario2Doc : List Page :=
  [{ text := some "1. Max Mustermann, geb. 01.01.1980\n2. Alpha Holding GmbH\n",
     tables := .ok [] }]

/-- A document for the table-precedence scenario: one table yielding a
single shareholder, and page text that the regex patterns would match. -/
def deceptiveDoc : List Page :=
  [{ text := some "Erika Musterfrau, Berlin, *01.01.1980",
     tables := .ok [[[some "Name"], [some "Max Mustermann"]]] }]

end GfScreening

namespace GfScreening

/-! ## Claim theorems -/

set_option maxRecDepth 20000

/-- C5: the Entity Classifier evaluates its rules in order with
short-circuit — a legal-entity marker substring (case-insensitively)
forces `false`; otherwise more than 5 whitespace-separated tokens forces
`false`; otherwise a digit forces `false`; otherwise the name is a
natural person — and the concrete names of the specification classify
accordingly. -/
theorem C5_entity_classifier :
    (∀ name, hasLegalMarker name = true → isNaturalPerson name = false) ∧
    (∀ name, hasLegalMarker name = false → 5 < (pySplitWs name).length →
      isNaturalPerson name = false) ∧
    (∀ name, hasLegalMarker name = false → (pySplitWs name).length ≤ 5 →
      name.data.any Char.isDigit = true → isNaturalPerson name = false) ∧
    (∀ name, hasLegalMarker name = false → (pySplitWs name).length ≤ 5 →
      name.data.any Char.isDigit = false → isNaturalPerson name = true) ∧
    isNaturalPerson "Holding GmbH" = false ∧
    isNaturalPerson "Deutsche Bank AG" = false ∧
    isNaturalPerson "Max Mustermann" = true ∧
    isNaturalPerson "Hans-Peter Müller" = true := by
  refine ⟨?_, ?_, ?_, ?_, by decide, by decide, by decide, by decide⟩
  · intro name h
    simp [isNaturalPerson, h]
  · intro name h1 h2
    simp [isNaturalPerson, h1, h2]
  · intro name h1 h2 h3
    simp [isNaturalPerson, h1, h3, show ¬(5 < (pySplitWs name).length) from by omega]
  · intro name h1 h2 h3
    simp [isNaturalPerson, h1, h3, show ¬(5 < (pySplitWs name).length) from by omega]

/-- Witness for C5 at a concrete marker name. -/
theorem C5_witness :
    hasLegalMarker "XYZ UG" = true ∧ isNaturalPerson "XYZ UG" = false :=
  ⟨by decide, C5_entity_classifier.1 "XYZ UG" (by decide)⟩

/-- C7 fails on the code: on the scenario-2 text the parser finds no
legal entity at all (no pattern of the library can match
"2. Alpha Holding GmbH": the line starts with a digit, and the inner
uppercase `H` of `GmbH` breaks every `[A-ZÄÖÜ][a-zäöüß]+` token), so
`legal_entities_count` is 0, not 1. -/
theorem C7_counterexample :
    ¬((parse true (.pages scenario2Doc)).natural_persons_count = 1 ∧
      (parse true (.pages scenario2Doc)).legal_entities_count = 1) := by
  decide

/-- C7 amended: parsing the scenario-2 text with no tables yields exactly
one shareholder, the natural person "Max Mustermann" (via the
`numbered_geb` pattern); `natural_persons_count = 1` and
`legal_entities_count = 0`. -/
theorem C7_amended :
    (parse true (.pages scenario2Doc)).shareholders =
      [{ name := "Max Mustermann", share_percent := none,
         is_natural_person := true, source := "regex:numbered_geb" }] ∧
    (parse true (.pages scenario2Doc)).natural_persons_count = 1 ∧
    (parse true (.pages scenario2Doc)).legal_entities_count = 0 := by
  decide

/-- C10: the Table Extractor's row loop is total over ragged grids — a
data row with fewer cells than the name-column index is skipped, and a
row that passes the name filters but is too short for the share column
(or whose share cell is empty/None) still yields a Shareholder with no
share value; no out-of-bounds access occurs. -/
theorem C10_ragged_rows :
    (∀ nc sc row, row.length ≤ nc → parseRow nc sc row = .ok none) ∧
    (∀ nc j row, nc < row.length → row.length ≤ j →
      rowName nc row ≠ "" → ¬ (rowName nc row).length < 3 →
      NON_PERSON_MARKERS.any
        (fun m => containsStr (pyLower (rowName nc row)) (pyLower m)) = false →
      parseRow nc (some j) row =
        .ok (some { name := cleanName (rowName nc row), share_percent := none,
                    is_natural_person := true, source := "table" })) ∧
    (∀ nc j row, nc < row.length → j < row.length →
      (row.getD j none = none ∨ row.getD j none = some "") →
      rowName nc row ≠ "" → ¬ (rowName nc row).length < 3 →
      NON_PERSON_MARKERS.any
        (fun m => containsStr (pyLower (rowName nc row)) (pyLower m)) = false →
      parseRow nc (some j) row =
        .ok (some { name := cleanName (rowName nc row), share_percent := none,
                    is_natural_person := true, source := "table" })) := by
  refine ⟨?_, ?_, ?_⟩
  · intro nc sc row h
    simp [parseRow, h]
  · intro nc j row h1 h2 h3 h4 h5
    simp only [parseRow, if_neg (by omega : ¬ row.length ≤ nc)]
    rw [if_neg (by simp [h3, h4]), if_neg (by simp [h5])]
    simp only [rowShare]
    rw [if_neg (by omega : ¬ row.length > j)]
    rfl
  · intro nc j row h1 h2 hcell h3 h4 h5
    rcases hcell with h | h <;>
      · simp only [parseRow, if_neg (by omega : ¬ row.length ≤ nc)]
        rw [if_neg (by simp [h3, h4]), if_neg (by simp [h5])]
        simp only [rowShare]
        rw [if_pos (by omega : row.length > j), h]
        rfl

/-- Witness for C10 on concrete ragged rows. -/
theorem C10_witness :
    ([some "Max Mustermann"] : List (Option String)).length ≤ 3 ∧
    parseRow 3 none [some "Max Mustermann"] = .ok none ∧
    parseRow 0 (some 5) [some "Max Mustermann"] =
      .ok (some { name := "Max Mustermann", share_percent := none,
                  is_natural_person := true, source := "table" }) :=
  ⟨by decide, C10_ragged_rows.1 3 none [some "Max Mustermann"] (by decide),
   by
    have h := C10_ragged_rows.2.1 0 5 [some "Max Mustermann"]
      (by decide) (by decide) (by decide) (by decide) (by decide)
    simpa using h⟩

/-- Auxiliary: `_parse_share` on a nonempty string whose percent search
matches reduces to the percent branch (the EUR pattern is never
consulted). -/
theorem parseShareE_pct {s : String} {g : List Char} (h0 : s ≠ "")
    (h : searchGo matchPercentAt s.data = some g) :
    parseShareE s =
      (match pyFloat (replaceAllStr ⟨g⟩ "," ".") with
        | some q => Except.ok (some q)
        | none => Except.error ()) := by
  unfold parseShareE
  rw [if_neg h0, h]

/-- Auxiliary: `_parse_share` on a nonempty string where only the EUR
search matches reduces to the EUR branch. -/
theorem parseShareE_eur {s : String} {g : List Char} (h0 : s ≠ "")
    (hp : searchGo matchPercentAt s.data = none)
    (h : searchGo matchEurAt s.data = some g) :
    parseShareE s =
      (match pyFloat (replaceAllStr (replaceAllStr ⟨g⟩ "." "") "," ".") with
        | some q => Except.ok (some q)
        | none => Except.error ()) := by
  unfold parseShareE
  rw [if_neg h0, hp, h]

/-- Auxiliary: evaluation of the embedded `float` on a digits-dot-digits
string. -/
theorem pyFloat_frac {s : String} {ip fp : List Char}
    (h : splitDotGo [] s.data = (ip, some fp))
    (h1 : (!(ip ++ fp).isEmpty && ip.all Char.isDigit && fp.all Char.isDigit) = true) :
    pyFloat s = some ((digitsToNat ip : ℚ) + (digitsToNat fp : ℚ) / (10 : ℚ) ^ fp.length) := by
  unfold pyFloat
  rw [h]
  exact if_pos h1

/-- Auxiliary: evaluation of the embedded `float` on a pure digit
string. -/
theorem pyFloat_int {s : String} {ip : List Char}
    (h : splitDotGo [] s.data = (ip, none))
    (h1 : (!ip.isEmpty && ip.all Char.isDigit) = true) :
    pyFloat s = some (digitsToNat ip : ℚ) := by
  unfold pyFloat
  rw [h]
  exact if_pos h1

/-- C4: the share/amount parser tries the percent pattern first and the
EUR pattern second, and on the specification's concrete inputs returns
50.0, 33.33, 25000.0 and 12500.0 (the dot before three digits acting as
a thousands separator), while "keine Angabe" and the empty string yield
no value instead of raising. -/
theorem C4_share_parsing :
    parseShareE "50,00 %" = .ok (some 50) ∧
    parseShareE "33,33%" = .ok (some (3333 / 100)) ∧
    parseShareE "25.000,00 EUR" = .ok (some 25000) ∧
    parseShareE "12.500 EUR" = .ok (some 12500) ∧
    parseShareE "keine Angabe" = .ok none ∧
    parseShareE "" = .ok none ∧
    (∀ s g, s ≠ "" → searchGo matchPercentAt s.data = some g →
      parseShareE s =
        (match pyFloat (replaceAllStr ⟨g⟩ "," ".") with
          | some q => Except.ok (some q)
          | none => Except.error ())) := by
  refine ⟨?_, ?_, ?_, ?_, by decide, by decide, fun s g h0 h => parseShareE_pct h0 h⟩
  · rw [parseShareE_pct (show ("50,00 %" : String) ≠ "" from by decide)
      (show searchGo matchPercentAt "50,00 %".data = some "50,00".data from by decide)]
    rw [show replaceAllStr ⟨"50,00".data⟩ "," "." = "50.00" from by decide]
    rw [pyFloat_frac (show splitDotGo [] "50.00".data = ("50".data, some "00".data) from by decide)
      (by decide)]
    norm_num [show digitsToNat "50".data = 50 from by decide,
      show digitsToNat "00".data = 0 from by decide,
      show ("00".data).length = 2 from by decide]
  · rw [parseShareE_pct (show ("33,33%" : String) ≠ "" from by decide)
      (show searchGo matchPercentAt "33,33%".data = some "33,33".data from by decide)]
    rw [show replaceAllStr ⟨"33,33".data⟩ "," "." = "33.33" from by decide]
    rw [pyFloat_frac (show splitDotGo [] "33.33".data = ("33".data, some "33".data) from by decide)
      (by decide)]
    norm_num [show digitsToNat "33".data = 33 from by decide,
      show ("33".data).length = 2 from by decide]
  · rw [parseShareE_eur (show ("25.000,00 EUR" : String) ≠ "" from by decide)
      (show searchGo matchPercentAt "25.000,00 EUR".data = none from by decide)
      (show searchGo matchEurAt "25.000,00 EUR".data = some "25.000,00".data from by decide)]
    rw [show replaceAllStr (replaceAllStr ⟨"25.000,00".data⟩ "." "") "," "." = "25000.00" from
      by decide]
    rw [pyFloat_frac
      (show splitDotGo [] "25000.00".data = ("25000".data, some "00".data) from by decide)
      (by decide)]
    norm_num [show digitsToNat "25000".data = 25000 from by decide,
      show digitsToNat "00".data = 0 from by decide,
      show ("00".data).length = 2 from by decide]
  · rw [parseShareE_eur (show ("12.500 EUR" : String) ≠ "" from by decide)
      (show searchGo matchPercentAt "12.500 EUR".data = none from by decide)
      (show searchGo matchEurAt "12.500 EUR".data = some "12.500".data from by decide)]
    rw [show replaceAllStr (replaceAllStr ⟨"12.500".data⟩ "." "") "," "." = "12500" from by decide]
    rw [pyFloat_int (show splitDotGo [] "12500".data = ("12500".data, none) from by decide)
      (by decide)]
    norm_num [show digitsToNat "12500".data = 12500 from by decide]

/-- Witness for C4's percent-first conjunct: on a string containing both
a percent and an EUR amount, the percent branch decides the result. -/
theorem C4_witness :
    parseShareE "7 % und 25.000,00 EUR" =
      (match pyFloat (replaceAllStr ⟨"7".data⟩ "," ".") with
        | some q => Except.ok (some q)
        | none => Except.error ()) :=
  C4_share_parsing.2.2.2.2.2.2 "7 % und 25.000,00 EUR" "7".data (by decide) (by decide)

/-- Auxiliary: the page loop of `parse` fails whenever some page's
`extract_tables()` raises, whatever the accumulator. -/
theorem foldlM_pageStep_error (ps : List Page) :
    ∀ acc : List Shareholder, (∃ p ∈ ps, p.tables = .error ()) →
      List.foldlM pageStep acc ps = .error () := by
  induction ps with
  | nil => intro acc h; simp at h
  | cons p rest ih =>
    intro acc h
    rw [List.foldlM_cons]
    rcases h with ⟨q, hq, he⟩
    rcases List.mem_cons.mp hq with rfl | hmem
    · have hs : pageStep acc q = .error () := by
        unfold pageStep
        rw [he]
        rfl
      rw [hs]
      rfl
    · cases hs : pageStep acc p with
      | error e =>
        cases e
        rfl
      | ok acc2 => exact ih acc2 ⟨q, hmem, he⟩

/-- C1: `parse` absorbs every anticipated failure — a missing file, a
raising `open`, a raise during text extraction, or a raise during table
extraction — returning a ParsingResult with no shareholders, zero
counts, confidence 0 and `raw_text` equal to whatever text had been
extracted before the failure (empty unless the failure happened during
table extraction). -/
theorem C1_failures_absorbed :
    (∀ doc, parse false doc = emptyResult "") ∧
    parse true .openFailed = emptyResult "" ∧
    parse true .textFailed = emptyResult "" ∧
    (∀ ps, (∃ p ∈ ps, p.tables = .error ()) →
      parse true (.pages ps) = emptyResult (fullTextOf ps)) := by
  refine ⟨fun doc => rfl, rfl, rfl, ?_⟩
  intro ps h
  have he : extractAllTables ps = .error () := foldlM_pageStep_error ps [] h
  simp only [parse, he]
  rfl

/-- Witness for C1 at a one-page document whose table extraction
raises. -/
theorem C1_witness :
    (∃ p ∈ [({ text := some "Seite eins", tables := .error () } : Page)],
        p.tables = .error ()) ∧
    parse true (.pages [{ text := some "Seite eins", tables := .error () }]) =
      emptyResult (fullTextOf [{ text := some "Seite eins", tables := .error () }]) :=
  ⟨⟨_, List.mem_singleton.mpr rfl, rfl⟩,
   C1_failures_absorbed.2.2.2 [{ text := some "Seite eins", tables := .error () }]
     ⟨_, List.mem_singleton.mpr rfl, rfl⟩⟩

/-- C2: the regex Text Extractor runs exactly when the shareholders
pooled from all tables of all pages are empty; when the pool is
nonempty, the parse result is built from the pooled table shareholders
alone (deduplicated and classified), regardless of what the full text
would match. -/
theorem C2_fallback_iff_no_table :
    ∀ ps shs0, extractAllTables ps = .ok shs0 →
      ((parse true (.pages ps)).shareholders =
        classifyAll (deduplicate
          (if shs0.isEmpty then parseWithPatterns (fullTextOf ps) else shs0))) ∧
      (shs0 ≠ [] →
        (parse true (.pages ps)).shareholders = classifyAll (deduplicate shs0)) ∧
      (shs0 = [] →
        (parse true (.pages ps)).shareholders =
          classifyAll (deduplicate (parseWithPatterns (fullTextOf ps)))) := by
  intro ps shs0 h
  have hp : parse true (.pages ps) = finishParse shs0 (fullTextOf ps) := by
    simp only [parse, h]
    rfl
  refine ⟨?_, ?_, ?_⟩
  · rw [hp]
    rfl
  · intro hne
    rw [hp]
    unfold finishParse
    cases shs0 with
    | nil => exact absurd rfl hne
    | cons a rest => rfl
  · intro heq
    subst heq
    rw [hp]
    rfl

/-- Witness for C2: a document whose single table yields one
shareholder while the page text contains a regex-matchable name; the
result still contains only the table-derived entry. -/
theorem C2_witness :
    extractAllTables deceptiveDoc =
      .ok [{ name := "Max Mustermann", share_percent := none,
             is_natural_person := true, source := "table" }] ∧
    parseWithPatterns (fullTextOf deceptiveDoc) ≠ [] ∧
    (parse true (.pages deceptiveDoc)).shareholders =
      classifyAll (deduplicate
        [{ name := "Max Mustermann", share_percent := none,
           is_natural_person := true, source := "table" }]) :=
  ⟨by decide, by decide,
   (C2_fallback_iff_no_table _ _ (by decide)).2.1 (by decide)⟩

/-- Auxiliary arithmetic: an accumulating conditional bonus is the
accumulator plus a standalone conditional bonus. -/
theorem add_ite_bonus (c : Prop) [Decidable c] (x a : ℚ) :
    (if c then x + a else x) = x + (if c then a else 0) := by
  split_ifs <;> ring

/-- Auxiliary arithmetic: merge a conditional bonus whose else branch
already carries the accumulator. -/
theorem add_ite_merge (c : Prop) [Decidable c] (x a y : ℚ) :
    (if c then x + a else x + y) = x + (if c then a else y) := by
  split_ifs <;> ring

/-- Auxiliary: a one-level conditional bonus is nonnegative. -/
theorem ite_bonus_nonneg (c : Prop) [Decidable c] {a : ℚ} (ha : 0 ≤ a) :
    (0 : ℚ) ≤ if c then a else 0 := by
  split_ifs <;> simp [ha]

/-- Auxiliary: a two-level conditional bonus is nonnegative. -/
theorem ite2_bonus_nonneg (c d : Prop) [Decidable c] [Decidable d] {a b : ℚ}
    (ha : 0 ≤ a) (hb : 0 ≤ b) :
    (0 : ℚ) ≤ if c then a else if d then b else 0 := by
  split_ifs <;> simp [ha, hb]

/-- C3: the Confidence Scorer computes exactly the specification's
additive model — 0 on an empty list; otherwise table bonus 0.30 or else
regex bonus 0.15, plus 0.20 for a present share value, plus 0.20 for a
count in [1,10] or else 0.10 for [11,20], plus 0.15 for a `*DD.MM.YYYY`
birthdate marker, plus 0.15 for the substring "gesellschafterliste",
clamped at 1 — and its value always lies in [0,1]. -/
theorem C3_confidence_scorer :
    (∀ shs text, calculateConfidence shs text = specConfidence shs text) ∧
    (∀ shs text, 0 ≤ calculateConfidence shs text ∧ calculateConfidence shs text ≤ 1) := by
  constructor
  · intro shs text
    unfold calculateConfidence specConfidence
    cases shs with
    | nil => rfl
    | cons a rest =>
      simp only [List.isEmpty_cons, Bool.false_eq_true, if_false,
        List.any_eq_true, decide_eq_true_eq, add_ite_bonus, add_ite_merge,
        reduceCtorEq]
      have hcnt :
          (if 1 ≤ (a :: rest).length ∧ (a :: rest).length ≤ 10 then (2 : ℚ) / 10
            else if (a :: rest).length ≤ 20 then 1 / 10 else 0)
          = (if 1 ≤ (a :: rest).length ∧ (a :: rest).length ≤ 10 then (2 : ℚ) / 10
            else if 11 ≤ (a :: rest).length ∧ (a :: rest).length ≤ 20 then 1 / 10
            else 0) := by
        have hl : (a :: rest).length = rest.length + 1 := rfl
        by_cases h4 : 1 ≤ (a :: rest).length ∧ (a :: rest).length ≤ 10
        · rw [if_pos h4, if_pos h4]
        · rw [if_neg h4, if_neg h4]
          by_cases h5 : (a :: rest).length ≤ 20
          · rw [if_pos h5, if_pos (by omega)]
          · rw [if_neg h5, if_neg (by omega)]
      rw [hcnt]
      congr 1
      ring
  · intro shs text
    unfold calculateConfidence
    cases shs with
    | nil => norm_num
    | cons a rest =>
      simp only [List.isEmpty_cons, Bool.false_eq_true, if_false,
        add_ite_bonus, add_ite_merge]
      refine ⟨le_min ?_ (by norm_num), min_le_right _ _⟩
      refine add_nonneg (add_nonneg (add_nonneg (add_nonneg
        (add_nonneg le_rfl ?_) ?_) ?_) ?_) ?_
      · exact ite2_bonus_nonneg _ _ (by norm_num) (by norm_num)
      · exact ite_bonus_nonneg _ (by norm_num)
      · exact ite2_bonus_nonneg _ _ (by norm_num) (by norm_num)
      · exact ite_bonus_nonneg _ (by norm_num)
      · exact ite_bonus_nonneg _ (by norm_num)

/-- Auxiliary: inversion of a successful `Except` bind. -/
theorem exceptBind_ok {α β : Type} {x : Except Unit α} {f : α → Except Unit β} {b : β}
    (h : (x >>= f) = .ok b) : ∃ a, x = .ok a ∧ f a = .ok b := by
  cases x with
  | error e => exact absurd h (by simp [Bind.bind, Except.bind])
  | ok a => exact ⟨a, rfl, by simpa [Bind.bind, Except.bind] using h⟩

/-- Auxiliary: inversion of the per-match body of
`_parse_with_patterns` — a produced Shareholder has the cleaned name,
passed both filters, carries no share value and a `regex:` source. -/
theorem regexEntry_some {pname raw : String} {sh : Shareholder}
    (h : regexEntry pname raw = some sh) :
    sh.name = cleanName raw ∧ 3 ≤ sh.name.length ∧
    (NON_PERSON_MARKERS.any fun m => containsStr (pyLower sh.name) (pyLower m)) = false ∧
    sh.share_percent = none ∧ sh.is_natural_person = true ∧
    sh.source = "regex:" ++ pname := by
  simp only [regexEntry] at h
  split_ifs at h with h1 h2
  all_goals simp only [Option.some.injEq, reduceCtorEq] at h
  subst h
  refine ⟨rfl, ?_, ?_, rfl, rfl, rfl⟩
  · show 3 ≤ (cleanName raw).length
    omega
  · simpa using h2

/-- Auxiliary: every element of `_parse_with_patterns` comes from
`regexEntry` for some pattern name and raw name. -/
theorem mem_parseWithPatterns {text : String} {sh : Shareholder}
    (h : sh ∈ parseWithPatterns text) :
    ∃ pname raw, regexEntry pname raw = some sh := by
  unfold parseWithPatterns at h
  simp only [List.mem_append, List.mem_filterMap] at h
  rcases h with ((((⟨g, _, hg⟩ | ⟨g, _, hg⟩) | ⟨g, _, hg⟩) | ⟨g, _, hg⟩) | ⟨g, _, hg⟩) <;>
    exact ⟨_, _, hg⟩

/-- Auxiliary: inversion of a row of `_parse_table` that produced a
Shareholder — the raw (stripped) cell name passed the filters, and the
Shareholder carries the cleaned name and source "table". -/
theorem parseRow_some {nc : Nat} {sc : Option Nat} {row : List (Option String)}
    {sh : Shareholder} (h : parseRow nc sc row = .ok (some sh)) :
    sh.name = cleanName (rowName nc row) ∧ rowName nc row ≠ "" ∧
    3 ≤ (rowName nc row).length ∧
    (NON_PERSON_MARKERS.any
      fun m => containsStr (pyLower (rowName nc row)) (pyLower m)) = false ∧
    sh.is_natural_person = true ∧ sh.source = "table" := by
  simp only [parseRow] at h
  split_ifs at h with h1 h2 h3
  all_goals try simp only [Except.ok.injEq, reduceCtorEq] at h
  cases hx : rowShare sc row with
  | error e =>
    rw [hx] at h
    simp only [Except.map, reduceCtorEq] at h
  | ok share =>
    rw [hx] at h
    simp only [Except.map] at h
    obtain rfl := Option.some.inj (Except.ok.inj h)
    simp only [Bool.or_eq_true, not_or, decide_eq_true_eq] at h2
    refine ⟨rfl, h2.1, by omega, by simpa using h3, rfl, rfl⟩

/-- Auxiliary: every shareholder emitted by the row loop of
`_parse_table` (beyond the accumulator) is produced by `parseRow`. -/
theorem foldlM_rowStep_mem {nc : Nat} {sc : Option Nat} :
    ∀ (rows : List (List (Option String))) (acc res : List Shareholder),
      rows.foldlM (rowStep nc sc) acc = .ok res → ∀ sh ∈ res,
        sh ∈ acc ∨ ∃ row, parseRow nc sc row = .ok (some sh) := by
  intro rows
  induction rows with
  | nil =>
    intro acc res h sh hm
    left
    obtain rfl : acc = res := by simpa [Pure.pure, Except.pure] using h
    exact hm
  | cons r rest ih =>
    intro acc res h sh hm
    rw [List.foldlM_cons] at h
    obtain ⟨acc1, hstep, hrest⟩ := exceptBind_ok h
    rcases ih _ _ hrest sh hm with hin | hex
    · unfold rowStep at hstep
      obtain ⟨pr, hpr, hpure⟩ := exceptBind_ok hstep
      cases pr with
      | some sh2 =>
        obtain rfl : acc ++ [sh2] = acc1 := by simpa [Pure.pure, Except.pure] using hpure
        rcases List.mem_append.mp hin with hacc | hone
        · exact Or.inl hacc
        · obtain rfl : sh = sh2 := by simpa using hone
          exact Or.inr ⟨r, hpr⟩
      | none =>
        obtain rfl : acc = acc1 := by simpa [Pure.pure, Except.pure] using hpure
        exact Or.inl hin
    · exact Or.inr hex

/-- Auxiliary: every shareholder of a successful `_parse_table` run is
produced by `parseRow`. -/
theorem parseTable_ok_mem {t : List (List (Option String))} {res : List Shareholder}
    (h : parseTable t = .ok res) :
    ∀ sh ∈ res, ∃ nc sc row, parseRow nc sc row = .ok (some sh) := by
  intro sh hm
  unfold parseTable at h
  split_ifs at h with h1
  · obtain rfl : ([] : List Shareholder) = res := by simpa using h
    simp at hm
  · cases hnc : chooseNameCol t with
    | none =>
      rw [hnc] at h
      obtain rfl : ([] : List Shareholder) = res := by simpa using h
      simp at hm
    | some nc =>
      rw [hnc] at h
      rcases foldlM_rowStep_mem _ _ _ h sh hm with hin | ⟨row, hrow⟩
      · simp at hin
      · exact ⟨nc, _, row, hrow⟩

/-- Auxiliary: the table loop of one page only adds `parseRow`-produced
shareholders. -/
theorem foldlM_tableStep_mem :
    ∀ (ts : List (List (List (Option String)))) (acc res : List Shareholder),
      ts.foldlM tableStep acc = .ok res → ∀ sh ∈ res,
        sh ∈ acc ∨ ∃ nc sc row, parseRow nc sc row = .ok (some sh) := by
  intro ts
  induction ts with
  | nil =>
    intro acc res h sh hm
    left
    obtain rfl : acc = res := by simpa [Pure.pure, Except.pure] using h
    exact hm
  | cons t rest ih =>
    intro acc res h sh hm
    rw [List.foldlM_cons] at h
    obtain ⟨acc1, hstep, hrest⟩ := exceptBind_ok h
    rcases ih _ _ hrest sh hm with hin | hex
    · unfold tableStep at hstep
      split_ifs at hstep with hte
      · obtain rfl : acc = acc1 := by simpa [Pure.pure, Except.pure] using hstep
        exact Or.inl hin
      · obtain ⟨ex, hpt, hpure⟩ := exceptBind_ok hstep
        obtain rfl : acc ++ ex = acc1 := by simpa [Pure.pure, Except.pure] using hpure
        rcases List.mem_append.mp hin with hacc | hex2
        · exact Or.inl hacc
        · exact Or.inr (parseTable_ok_mem hpt sh hex2)
    · exact Or.inr hex

/-- Auxiliary: every shareholder pooled by the page loop of `parse` is
produced by `parseRow` (hence table-derived). -/
theorem extractAllTables_mem {ps : List Page} {shs0 : List Shareholder}
    (h : extractAllTables ps = .ok shs0) :
    ∀ sh ∈ shs0, ∃ nc sc row, parseRow nc sc row = .ok (some sh) := by
  suffices haux : ∀ (qs : List Page) (acc res : List Shareholder),
      qs.foldlM pageStep acc = .ok res → ∀ sh ∈ res,
        sh ∈ acc ∨ ∃ nc sc row, parseRow nc sc row = .ok (some sh) by
    intro sh hm
    rcases haux ps [] shs0 h sh hm with hin | hex
    · simp at hin
    · exact hex
  intro qs
  induction qs with
  | nil =>
    intro acc res h sh hm
    left
    obtain rfl : acc = res := by simpa [Pure.pure, Except.pure] using h
    exact hm
  | cons p rest ih =>
    intro acc res h sh hm
    rw [List.foldlM_cons] at h
    obtain ⟨acc1, hstep, hrest⟩ := exceptBind_ok h
    rcases ih _ _ hrest sh hm with hin | hex
    · unfold pageStep at hstep
      obtain ⟨tabs, _, hfold⟩ := exceptBind_ok hstep
      exact foldlM_tableStep_mem _ _ _ hfold sh hin
    · exact Or.inr hex

/-- Auxiliary: deduplication only removes elements. -/
theorem mem_dedupGo {sh : Shareholder} :
    ∀ (l : List Shareholder) (seen : List String), sh ∈ dedupGo seen l → sh ∈ l := by
  intro l
  induction l with
  | nil => intro seen h; simp [dedupGo] at h
  | cons a rest ih =>
    intro seen h
    unfold dedupGo at h
    split_ifs at h with hc
    · exact List.mem_cons_of_mem a (ih _ h)
    · rcases List.mem_cons.mp h with rfl | h2
      · exact List.mem_cons_self _ _
      · exact List.mem_cons_of_mem a (ih _ h2)

/-- Auxiliary: classification only rewrites `is_natural_person`. -/
theorem mem_classifyAll {sh : Shareholder} {l : List Shareholder}
    (h : sh ∈ classifyAll l) :
    ∃ sh0 ∈ l, sh = { sh0 with is_natural_person := isNaturalPerson sh0.name } := by
  unfold classifyAll at h
  obtain ⟨sh0, hm, rfl⟩ := List.mem_map.mp h
  exact ⟨sh0, hm, rfl⟩

/-- C6 fails on the code: in the table path the minimum-length and
marker filters are applied to the raw stripped cell value, before
cleaning, so a cell consisting of three commas passes them and yields a
Shareholder whose cleaned name is empty — also through the full
parse. -/
theorem C6_counterexample :
    parseTable [[some "name"], [some ",,,"]] =
      .ok [{ name := "", share_percent := none,
             is_natural_person := true, source := "table" }] ∧
    (parse true (.pages [{ text := none,
                           tables := .ok [[[some "name"], [some ",,,"]]] }])).shareholders =
      [{ name := "", share_percent := none,
         is_natural_person := true, source := "table" }] := by
  constructor
  · decide
  · decide

/-- C6 amended: in the regex path the filters are applied to the
cleaned name, which therefore has length at least 3 (hence is nonempty)
and contains no non-person marker; in the table path the same filters
are applied to the raw stripped cell value before cleaning, so the
cleaned name equals `cleanName raw` for a raw name of length at least 3
that is nonempty and marker-free — but the cleaned name itself can be
empty. -/
theorem C6_name_filters :
    (∀ text sh, sh ∈ parseWithPatterns text →
      sh.name ≠ "" ∧ 3 ≤ sh.name.length ∧
      (NON_PERSON_MARKERS.any
        fun m => containsStr (pyLower sh.name) (pyLower m)) = false) ∧
    (∀ ps shs0 sh, extractAllTables ps = .ok shs0 → sh ∈ shs0 →
      ∃ raw, sh.name = cleanName raw ∧ raw ≠ "" ∧ 3 ≤ raw.length ∧
        (NON_PERSON_MARKERS.any
          fun m => containsStr (pyLower raw) (pyLower m)) = false) := by
  constructor
  · intro text sh h
    obtain ⟨pname, raw, hre⟩ := mem_parseWithPatterns h
    obtain ⟨_, hlen, hmark, _, _, _⟩ := regexEntry_some hre
    refine ⟨?_, hlen, hmark⟩
    intro he
    rw [he] at hlen
    simp at hlen
  · intro ps shs0 sh hext hm
    obtain ⟨nc, sc, row, hrow⟩ := extractAllTables_mem hext sh hm
    obtain ⟨hname, hne, hlen, hmark, _, _⟩ := parseRow_some hrow
    exact ⟨rowName nc row, hname, hne, hlen, hmark⟩

/-- Witness for C6's amended regex conjunct at a concrete text. -/
theorem C6_witness :
    ({ name := "Max Mustermann", share_percent := none, is_natural_person := true,
       source := "regex:numbered_geb" } : Shareholder) ∈
      parseWithPatterns "1. Max Mustermann, geb. 01.01.1980" ∧
    (({ name := "Max Mustermann", share_percent := none, is_natural_person := true,
        source := "regex:numbered_geb" } : Shareholder).name ≠ "" ∧
      3 ≤ ({ name := "Max Mustermann", share_percent := none, is_natural_person := true,
             source := "regex:numbered_geb" } : Shareholder).name.length ∧
      (NON_PERSON_MARKERS.any fun m => containsStr
        (pyLower ({ name := "Max Mustermann", share_percent := none,
                    is_natural_person := true,
                    source := "regex:numbered_geb" } : Shareholder).name)
        (pyLower m)) = false) :=
  ⟨by decide,
   C6_name_filters.1 "1. Max Mustermann, geb. 01.01.1980" _ (by decide)⟩

/-- C9: the regex Text Extractor never sets a share value — every
Shareholder it produces has `share_percent = none`, for every input text
and every pattern (the `name_share` amount group is discarded) — and in
every parse result only table-derived shareholders can carry a share
value. -/
theorem C9_regex_no_share :
    (∀ text sh, sh ∈ parseWithPatterns text → sh.share_percent = none) ∧
    (∀ pathExists doc sh, sh ∈ (parse pathExists doc).shareholders →
      sh.share_percent ≠ none → sh.source = "table") := by
  have hreg : ∀ text sh, sh ∈ parseWithPatterns text → sh.share_percent = none := by
    intro text sh h
    obtain ⟨pname, raw, hre⟩ := mem_parseWithPatterns h
    exact (regexEntry_some hre).2.2.2.1
  refine ⟨hreg, ?_⟩
  intro pe doc sh hm hs
  cases pe with
  | false => simp [parse, emptyResult] at hm
  | true =>
    cases doc with
    | openFailed => simp [parse, emptyResult] at hm
    | textFailed => simp [parse, emptyResult] at hm
    | pages ps =>
      rw [show parse true (.pages ps) =
          (match extractAllTables ps with
            | .error _ => emptyResult (fullTextOf ps)
            | .ok shs0 => finishParse shs0 (fullTextOf ps)) from rfl] at hm
      cases hext : extractAllTables ps with
      | error e =>
        rw [hext] at hm
        simp [emptyResult] at hm
      | ok shs0 =>
        rw [hext] at hm
        unfold finishParse at hm
        obtain ⟨sh0, hm0, rfl⟩ := mem_classifyAll hm
        have hs0 : sh0.share_percent ≠ none := hs
        have hmem1 := mem_dedupGo _ _ hm0
        by_cases hemp : shs0.isEmpty
        · rw [if_pos hemp] at hmem1
          exact absurd (hreg _ _ hmem1) hs0
        · rw [if_neg hemp] at hmem1
          obtain ⟨nc, sc, row, hrow⟩ := extractAllTables_mem hext sh0 hmem1
          exact (parseRow_some hrow).2.2.2.2.2

/-- Witness for C9 at the scenario-2 text. -/
theorem C9_witness :
    ({ name := "Max Mustermann", share_percent := none, is_natural_person := true,
       source := "regex:numbered_geb" } : Shareholder) ∈
      parseWithPatterns "1. Max Mustermann, geb. 01.01.1980\n2. Alpha Holding GmbH\n" ∧
    ({ name := "Max Mustermann", share_percent := none, is_natural_person := true,
       source := "regex:numbered_geb" } : Shareholder).share_percent = none :=
  ⟨by decide,
   C9_regex_no_share.1 "1. Max Mustermann, geb. 01.01.1980\n2. Alpha Holding GmbH\n" _
     (by decide)⟩

/-- Auxiliary: the seen-set loop of `_deduplicate` computes the
first-occurrence reference recursion, restricted to keys not yet
seen. -/
theorem dedupGo_eq_specDedup :
    ∀ (l : List Shareholder) (seen : List String),
      dedupGo seen l = specDedup (l.filter fun y => !seen.contains (dedupKey y)) := by
  intro l
  induction l with
  | nil => intro seen; simp [dedupGo, specDedup]
  | cons sh rest ih =>
    intro seen
    unfold dedupGo
    rw [List.filter_cons]
    cases hc : seen.contains (dedupKey sh) with
    | true =>
      rw [if_pos rfl]
      simp only [Bool.not_true, Bool.false_eq_true, if_false]
      exact ih seen
    | false =>
      rw [if_neg (by simp)]
      simp only [Bool.not_false, eq_self_iff_true, if_true]
      rw [ih (dedupKey sh :: seen)]
      rw [specDedup.eq_2]
      congr 1
      rw [List.filter_filter]
      congr 1
      apply List.filter_congr
      intro y hy
      simp only [List.contains_cons, Bool.not_or]
      cases hk : dedupKey y == dedupKey sh with
      | true =>
        have he := eq_of_beq hk
        simp [he]
      | false =>
        have hne := ne_of_beq_false hk
        simp [hk, hne]

/-- Auxiliary: the output of `_deduplicate`'s loop avoids the seen keys
and has pairwise distinct keys. -/
theorem dedupGo_pairwise :
    ∀ (l : List Shareholder) (seen : List String),
      (∀ x ∈ dedupGo seen l, seen.contains (dedupKey x) = false) ∧
      (dedupGo seen l).Pairwise (fun a b => dedupKey a ≠ dedupKey b) := by
  intro l
  induction l with
  | nil =>
    intro seen
    exact ⟨fun x hx => by simp [dedupGo] at hx, by simp [dedupGo]⟩
  | cons sh rest ih =>
    intro seen
    unfold dedupGo
    cases hc : seen.contains (dedupKey sh) with
    | true =>
      rw [if_pos rfl]
      exact ih seen
    | false =>
      rw [if_neg (by simp)]
      obtain ⟨hinv, hpw⟩ := ih (dedupKey sh :: seen)
      constructor
      · intro x hx
        rcases List.mem_cons.mp hx with rfl | hx2
        · exact hc
        · have h2 := hinv x hx2
          simp only [List.contains_cons, Bool.or_eq_false_iff] at h2
          exact h2.2
      · refine List.Pairwise.cons ?_ hpw
        intro b hb
        have h2 := hinv b hb
        simp only [List.contains_cons, Bool.or_eq_false_iff] at h2
        have hb2 : (dedupKey b == dedupKey sh) = false := h2.1
        intro heq
        rw [heq] at hb2
        simp at hb2

/-- C8: the Deduplicator keeps exactly the first occurrence of each
`name.lower().strip()` key (order preserved, keys pairwise distinct
afterwards), and attributes are never merged — a later case-variant
duplicate carrying a share value is simply discarded. -/
theorem C8_deduplicate :
    (∀ l, deduplicate l = specDedup l) ∧
    (∀ l, (deduplicate l).Pairwise fun a b => dedupKey a ≠ dedupKey b) ∧
    deduplicate
        [{ name := "Max Mustermann" }, { name := "Erika Musterfrau" },
         { name := "max mustermann", share_percent := some 50 }] =
      [{ name := "Max Mustermann" }, { name := "Erika Musterfrau" }] := by
  refine ⟨?_, fun l => (dedupGo_pairwise l []).2, by decide⟩
  intro l
  have h := dedupGo_eq_specDedup l []
  simpa [deduplicate] using h

end GfScreening
